/-
Verification of the pricing-and-settlement core of the iota-defi protocol.

The development shallowly embeds the two Move modules that hold the
algorithms under specification:

* `iota_defi_protocol::defi_protocol` — the AMM: constant-product and
  stable-swap pricing, pool creation, liquidity provision, swaps and
  flash loans.  Machine integers (u64/u128) are modelled as `Nat`;
  operations that can abort in Move (failed `assert!`, arithmetic
  underflow, division by zero, narrowing casts, duplicate-key inserts)
  are modelled as `Option`-returning functions where the abort is
  reachable and relevant.  Nat arithmetic agrees with the u64/u128
  arithmetic of every non-aborting Move execution, so universally
  quantified statements about the `some` results cover all successful
  calls of the source.

* `iota_defi_protocol::oracle_aggregator` — the multi-source price
  oracle: submission buffering, staleness filtering, confidence-weighted
  aggregation, circuit breaker, TWAP history.  The per-pair state
  (`PriceFeed`, `CircuitBreaker`, `PriceHistory`) is modelled as one
  `PairState` record; the Move `VecMap<address, PriceSubmission>` is an
  insertion-ordered association list whose `insert` rejects duplicate
  keys, exactly as `iota::vec_map` does.
-/
import Mathlib

/-! ## AMM: `defi_protocol` module -/

/-- Move's `u64` range bound: narrowing casts `(x as u64)` abort when
`x ≥ 2^64`. -/
def U64_BOUND : Nat := 2 ^ 64

/-- Model of the Move narrowing cast `(x as u64)` on a `u128` value:
returns the value when it fits, aborts (`none`) otherwise. -/
def castU64 (x : Nat) : Option Nat :=
  if x < U64_BOUND then some x else none

/-- One iteration step of the Newton loop of `sqrt_u128`, run on
explicit fuel.  The source loop is
`while (guess * guess > x) { guess = (guess + x / guess) / 2 }`;
the guess strictly decreases on every iteration, so fuel equal to the
initial guess always suffices (proved in `sqrtLoop_eq_sqrt`). -/
def sqrtLoop (x : Nat) : Nat → Nat → Nat
  | 0, guess => guess
  | fuel + 1, guess =>
    if x < guess * guess then sqrtLoop x fuel ((guess + x / guess) / 2) else guess

/-- `fun sqrt_u128(x: u128): u128` from `defi_protocol.move`:
integer square root by Newton iteration, initial guess `max(x/2, 1)`. -/
def sqrt_u128 (x : Nat) : Nat :=
  if x = 0 then 0
  else
    let g0 := x / 2
    let g := if g0 = 0 then 1 else g0
    sqrtLoop x g g

/-- `calculate_constant_product_output` from `defi_protocol.move`:
`floor(amountIn*(10000-feeBps)*reserveOut /
       (reserveIn*10000 + amountIn*(10000-feeBps)))`. -/
def calculate_constant_product_output (amount_in reserve_in reserve_out fee_rate : Nat) :
    Nat :=
  let amount_in_with_fee := amount_in * (10000 - fee_rate)
  let numerator := amount_in_with_fee * reserve_out
  let denominator := reserve_in * 10000 + amount_in_with_fee
  numerator / denominator

/-- `calculate_stable_swap_output` from `defi_protocol.move` (the
amplification argument is accepted but unused by the source formula). -/
def calculate_stable_swap_output (amount_in reserve_in reserve_out _amplification : Nat) :
    Nat :=
  let fee_adjusted_input := amount_in * 9970 / 10000
  fee_adjusted_input * reserve_out / (reserve_in + fee_adjusted_input)

/-- The fields of `LiquidityPool<T, U>` that carry the pool's state
(object id omitted; the two `Balance` fields are their `Nat` values). -/
structure LiquidityPool where
  token_a_reserve : Nat
  token_b_reserve : Nat
  lp_token_supply : Nat
  swap_fee_rate : Nat
  last_price : Nat
  price_cumulative_last : Nat
  block_timestamp_last : Nat
  k_constant : Nat
  amplification_coefficient : Nat
  is_stable_pool : Bool
  deriving Repr, DecidableEq

/-- `create_liquidity_pool` from `defi_protocol.move`, after the pause
and admin gates: aborts (`none`) when either deposit is zero and when
the `u128` product `k_constant` fails the narrowing cast to `u64`.
`fee_rate` is `protocol.trading_fee_rate`. -/
def create_liquidity_pool (amount_a amount_b : Nat) (is_stable : Bool)
    (amplification fee_rate : Nat) : Option LiquidityPool :=
  if amount_a > 0 ∧ amount_b > 0 then
    let k_constant := amount_a * amount_b
    match castU64 k_constant with
    | none => none
    | some k =>
      some
        { token_a_reserve := amount_a
          token_b_reserve := amount_b
          lp_token_supply := sqrt_u128 k_constant
          swap_fee_rate := fee_rate
          last_price := amount_b * 1000000 / amount_a
          price_cumulative_last := 0
          block_timestamp_last := 0
          k_constant := k
          amplification_coefficient := amplification
          is_stable_pool := is_stable }
  else none

/-- `add_liquidity` from `defi_protocol.move` (pool-state core): returns
the updated pool and the minted LP amount, aborting (`none`) on the
slippage assert and on the `u64` narrowing cast of the new `k_constant`. -/
def add_liquidity (pool : LiquidityPool) (amount_a amount_b min_lp_tokens : Nat) :
    Option (LiquidityPool × Nat) :=
  let reserve_a := pool.token_a_reserve
  let reserve_b := pool.token_b_reserve
  let oab : Nat × Nat × Nat :=
    if reserve_a = 0 ∨ reserve_b = 0 then
      (amount_a, amount_b, sqrt_u128 (amount_a * amount_b))
    else
      let amount_b_optimal := amount_a * reserve_b / reserve_a
      let amount_a_optimal := amount_b * reserve_a / reserve_b
      if amount_b_optimal ≤ amount_b then
        (amount_a, amount_b_optimal, amount_a * pool.lp_token_supply / reserve_a)
      else
        (amount_a_optimal, amount_b, amount_b * pool.lp_token_supply / reserve_b)
  let optimal_a := oab.1
  let optimal_b := oab.2.1
  let lp_tokens_to_mint := oab.2.2
  if lp_tokens_to_mint < min_lp_tokens then none
  else
    let new_reserve_a := reserve_a + optimal_a
    let new_reserve_b := reserve_b + optimal_b
    match castU64 (new_reserve_a * new_reserve_b) with
    | none => none
    | some k =>
      some
        ({ pool with
            token_a_reserve := new_reserve_a
            token_b_reserve := new_reserve_b
            lp_token_supply := pool.lp_token_supply + lp_tokens_to_mint
            k_constant := k },
          lp_tokens_to_mint)

/-- `swap_exact_input` from `defi_protocol.move` (pool-state core):
returns the updated pool and the output amount.  Aborts (`none`) on a
zero input, on `10000 - fee` underflow, on `amount_out == 0`, on the
slippage assert, on the `reserve_in` division by zero in the price
computation, and when the output exceeds the outgoing reserve
(`balance::split` abort). -/
def swap_exact_input (pool : LiquidityPool) (amount_in min_amount_out : Nat) :
    Option (LiquidityPool × Nat) :=
  if amount_in = 0 then none
  else if 10000 < pool.swap_fee_rate then none
  else
    let reserve_in := pool.token_a_reserve
    let reserve_out := pool.token_b_reserve
    if reserve_in = 0 then none
    else
      let amount_out :=
        if pool.is_stable_pool then
          calculate_stable_swap_output amount_in reserve_in reserve_out
            pool.amplification_coefficient
        else
          calculate_constant_product_output amount_in reserve_in reserve_out
            pool.swap_fee_rate
      if amount_out = 0 then none
      else if amount_out < min_amount_out then none
      else if reserve_out < amount_out then none
      else
        let price_after := (reserve_out - amount_out) * 1000000 / (reserve_in + amount_in)
        some
          ({ pool with
              token_a_reserve := reserve_in + amount_in
              token_b_reserve := reserve_out - amount_out
              last_price := price_after },
            amount_out)

/-- The `FlashLoan<T>` hot-potato receipt of `defi_protocol.move`. -/
structure FlashLoan where
  amount : Nat
  fee : Nat
  deriving Repr, DecidableEq

/-- `flash_loan` from `defi_protocol.move`: lends at most one tenth
(truncated) of the reserve, fee `floor(amount*9/10000)`; returns the
pool with the loan split out, the loaned amount and the receipt. -/
def flash_loan (pool : LiquidityPool) (amount : Nat) :
    Option (LiquidityPool × Nat × FlashLoan) :=
  let reserve := pool.token_a_reserve
  if amount ≤ reserve / 10 then
    let fee := amount * 9 / 10000
    some ({ pool with token_a_reserve := reserve - amount }, amount, ⟨amount, fee⟩)
  else none

/-- `repay_flash_loan` from `defi_protocol.move`: aborts unless the
repayment coin covers principal plus fee, then joins the whole
repayment into the reserve. -/
def repay_flash_loan (pool : LiquidityPool) (repayment : Nat) (receipt : FlashLoan) :
    Option LiquidityPool :=
  let total_repayment := receipt.amount + receipt.fee
  if repayment < total_repayment then none
  else some { pool with token_a_reserve := pool.token_a_reserve + repayment }

/-! ## Oracle: `oracle_aggregator` module -/

/-- Constant `MIN_CONFIDENCE_THRESHOLD` of `oracle_aggregator.move`. -/
def MIN_CONFIDENCE_THRESHOLD : Nat := 70

/-- Constant `MAX_PRICE_DEVIATION` of `oracle_aggregator.move` (10%). -/
def MAX_PRICE_DEVIATION : Nat := 1000

/-- Constant `MIN_DATA_SOURCES` of `oracle_aggregator.move`. -/
def MIN_DATA_SOURCES : Nat := 3

/-- Constant `TWAP_WINDOW_SIZE` of `oracle_aggregator.move` (hours). -/
def TWAP_WINDOW_SIZE : Nat := 24

/-- Constant `CIRCUIT_BREAKER_THRESHOLD` of `oracle_aggregator.move` (20%). -/
def CIRCUIT_BREAKER_THRESHOLD : Nat := 2000

/-- `PriceSubmission` of `oracle_aggregator.move` (the always-empty
`signature_hash` field is omitted). -/
structure PriceSubmission where
  price : Nat
  confidence : Nat
  timestamp : Nat
  source_id : String
  deriving Repr, DecidableEq

/-- `OracleNode` of `oracle_aggregator.move`; addresses are modelled as
`Nat`. -/
structure OracleNode where
  node_address : Nat
  reputation_score : Nat
  total_submissions : Nat
  accurate_submissions : Nat
  stake_amount : Nat
  last_submission : Nat
  is_authorized : Bool
  reward_multiplier : Nat
  deriving Repr, DecidableEq

/-- `PriceFeed` of `oracle_aggregator.move`; the
`VecMap<address, PriceSubmission>` buffer is an insertion-ordered
association list. -/
structure PriceFeed where
  pair : String
  current_price : Nat
  confidence : Nat
  last_update : Nat
  source_count : Nat
  twap_24h : Nat
  volume_weighted_price : Nat
  price_sources : List (Nat × PriceSubmission)
  is_active : Bool
  deriving Repr, DecidableEq

/-- `HourlyPrice` of `oracle_aggregator.move` (`open` is a Lean keyword,
hence the trailing underscore). -/
structure HourlyPrice where
  timestamp : Nat
  open_ : Nat
  high : Nat
  low : Nat
  close : Nat
  volume : Nat
  weighted_price : Nat
  deriving Repr, DecidableEq

/-- `PriceHistory` of `oracle_aggregator.move` (the unused
`daily_summary` and `last_cleanup` bookkeeping fields are omitted). -/
structure PriceHistory where
  hourly_prices : List HourlyPrice
  max_history_size : Nat
  deriving Repr, DecidableEq

/-- `CircuitBreaker` of `oracle_aggregator.move`. -/
structure CircuitBreaker where
  pair : String
  is_triggered : Bool
  trigger_price : Nat
  trigger_timestamp : Nat
  reset_threshold : Nat
  consecutive_anomalies : Nat
  last_normal_price : Nat
  deriving Repr, DecidableEq

/-- `AggregationSettings` of `oracle_aggregator.move`. -/
structure AggregationSettings where
  min_sources : Nat
  confidence_threshold : Nat
  deviation_threshold : Nat
  stale_threshold : Nat
  circuit_breaker_enabled : Bool
  twap_enabled : Bool
  volume_weighting_enabled : Bool
  deriving Repr, DecidableEq

/-- The three per-pair records of the aggregator
(`supported_pairs`, `circuit_breakers`, `price_history` at one key). -/
structure PairState where
  feed : PriceFeed
  breaker : CircuitBreaker
  history : PriceHistory
  deriving Repr, DecidableEq

/-- The aggregator settings installed by `init`. -/
def defaultSettings : AggregationSettings :=
  { min_sources := MIN_DATA_SOURCES
    confidence_threshold := MIN_CONFIDENCE_THRESHOLD
    deviation_threshold := MAX_PRICE_DEVIATION
    stale_threshold := 5 * 60 * 1000
    circuit_breaker_enabled := true
    twap_enabled := true
    volume_weighting_enabled := true }

/-- `vec_map::insert`: aborts (`none`) when the key is already present,
otherwise appends the entry at the end. -/
def vecMapInsert (m : List (Nat × PriceSubmission)) (k : Nat) (v : PriceSubmission) :
    Option (List (Nat × PriceSubmission)) :=
  if m.any (fun p => p.1 = k) then none else some (m ++ [(k, v)])

/-- `calculate_price_deviation` from `oracle_aggregator.move`:
`|new - old| * 10000 / old` in basis points, `0` when no old price. -/
def calculate_price_deviation (new_price old_price : Nat) : Nat :=
  if old_price = 0 then 0
  else
    let diff := if new_price > old_price then new_price - old_price
                else old_price - new_price
    diff * 10000 / old_price

/-- `add_price_feed` from `oracle_aggregator.move`, after the admin and
fresh-pair gates: the initial per-pair state. -/
def add_price_feed (pair : String) : PairState :=
  { feed :=
      { pair := pair
        current_price := 0
        confidence := 0
        last_update := 0
        source_count := 0
        twap_24h := 0
        volume_weighted_price := 0
        price_sources := []
        is_active := true }
    breaker :=
      { pair := pair
        is_triggered := false
        trigger_price := 0
        trigger_timestamp := 0
        reset_threshold := MAX_PRICE_DEVIATION / 2
        consecutive_anomalies := 0
        last_normal_price := 0 }
    history :=
      { hourly_prices := []
        max_history_size := TWAP_WINDOW_SIZE * 30 } }

/-- The staleness filter of `aggregate_prices`: keeps the submissions
with `current_time - timestamp <= stale_threshold`. -/
def freshSubmissions (stale_threshold current_time : Nat)
    (subs : List (Nat × PriceSubmission)) : List (Nat × PriceSubmission) :=
  subs.filter (fun p => current_time - p.2.timestamp ≤ stale_threshold)

/-- The accumulation loop of `aggregate_prices`:
`Σ floor(price_i * confidence_i / 100)` (one truncation per term). -/
def weightedSum (subs : List (Nat × PriceSubmission)) : Nat :=
  (subs.map (fun p => p.2.price * p.2.confidence / 100)).sum

/-- `total_weight` of `aggregate_prices`: the sum of the confidences. -/
def totalWeight (subs : List (Nat × PriceSubmission)) : Nat :=
  (subs.map (fun p => p.2.confidence)).sum

/-- The weighted price computed by `aggregate_prices`: the per-term
truncated sum, rescaled by `* 100 / total_weight` when the total weight
is positive. -/
def aggWeightedPrice (subs : List (Nat × PriceSubmission)) : Nat :=
  if 0 < totalWeight subs then weightedSum subs * 100 / totalWeight subs
  else weightedSum subs

/-- The circuit-breaker trip test of `aggregate_prices`: an old price
exists, the breaker is enabled, and the deviation exceeds
`CIRCUIT_BREAKER_THRESHOLD`. -/
def tripsBreaker (settings : AggregationSettings) (old_price new_price : Nat) : Bool :=
  0 < old_price && settings.circuit_breaker_enabled &&
    CIRCUIT_BREAKER_THRESHOLD < calculate_price_deviation new_price old_price

/-- `aggregate_prices` from `oracle_aggregator.move` on one pair.
Aborts (`none`) when a buffered timestamp lies in the future (the `u64`
subtraction in the staleness check underflows), when fewer than
`min_sources` fresh submissions remain, when the fresh count is zero
(division by zero in the average confidence), and when the buffer is
empty at the final re-insertion (`vector::borrow` on index 0).  On the
trip path only the breaker changes; on the publish path the feed is
overwritten and the buffer is cleared and then re-seeded with the first
entry of the pre-round buffer (source line
`vec_map::insert(&mut price_feed.price_sources, *vector::borrow(&sources, 0), *vector::borrow(&submissions, 0))`).
The TWAP/history update of the specification is absent: the
`update_twap` call is commented out in the source. -/
def aggregate_prices (settings : AggregationSettings) (st : PairState)
    (current_time : Nat) : Option PairState :=
  let subs := st.feed.price_sources
  if subs.any (fun p => current_time < p.2.timestamp) then none
  else
    let valid := freshSubmissions settings.stale_threshold current_time subs
    if valid.length < settings.min_sources then none
    else if valid.length = 0 then none
    else
      let weighted_price := aggWeightedPrice valid
      let avg_confidence := totalWeight valid / valid.length
      if tripsBreaker settings st.feed.current_price weighted_price then
        some
          { st with
            breaker :=
              { st.breaker with
                is_triggered := true
                trigger_price := weighted_price
                trigger_timestamp := current_time
                consecutive_anomalies := st.breaker.consecutive_anomalies + 1 } }
      else
        match subs with
        | [] => none
        | first :: _ =>
          some
            { st with
              feed :=
                { st.feed with
                  current_price := weighted_price
                  confidence := avg_confidence
                  last_update := current_time
                  source_count := valid.length
                  price_sources := [first] } }

/-- `submit_price` from `oracle_aggregator.move` on one pair: the gates
in source order (pause, confidence bound, node registration modelled by
the `node` argument, authorization, circuit-breaker reset filter), the
duplicate-rejecting buffer insert, the node-statistics update, and the
synchronous aggregation at quorum.  Returns the new pair state and the
updated node record. -/
def submit_price (settings : AggregationSettings) (is_paused : Bool)
    (node : OracleNode) (st : PairState) (price confidence : Nat)
    (source_id : String) (current_time : Nat) : Option (PairState × OracleNode) :=
  if is_paused then none
  else if 100 < confidence then none
  else if ¬node.is_authorized then none
  else if st.breaker.is_triggered ∧
      st.breaker.reset_threshold <
        calculate_price_deviation price st.breaker.last_normal_price then none
  else
    let submission : PriceSubmission :=
      { price := price, confidence := confidence, timestamp := current_time
        source_id := source_id }
    match vecMapInsert st.feed.price_sources node.node_address submission with
    | none => none
    | some sources =>
      let st1 : PairState := { st with feed := { st.feed with price_sources := sources } }
      let node1 : OracleNode :=
        { node with
          total_submissions := node.total_submissions + 1
          last_submission := current_time }
      if settings.min_sources ≤ sources.length then
        match aggregate_prices settings st1 current_time with
        | none => none
        | some st2 => some (st2, node1)
      else some (st1, node1)

/-- `calculate_twap` from `oracle_aggregator.move`: truncated mean of
the `weighted_price` of the last `hours` hourly buckets. -/
def calculate_twap (history : PriceHistory) (hours : Nat) : Nat :=
  let prices := history.hourly_prices
  let length := prices.length
  if length = 0 then 0
  else
    let start_index := if length > hours then length - hours else 0
    let window := prices.drop start_index
    let sum := (window.map (fun p => p.weighted_price)).sum
    let count := window.length
    if count > 0 then sum / count else 0

/-- `update_twap` from `oracle_aggregator.move` (dead code: its only
call site in `aggregate_prices` is commented out in the source): pushes
an hourly bucket, evicts the oldest bucket past `max_history_size`, and
recomputes `twap_24h` over the last 24 buckets. -/
def update_twap (st : PairState) (new_price timestamp : Nat) : PairState :=
  let hourly_price : HourlyPrice :=
    { timestamp := timestamp, open_ := new_price, high := new_price
      low := new_price, close := new_price, volume := 0, weighted_price := new_price }
  let pushed := st.history.hourly_prices ++ [hourly_price]
  let pruned :=
    if pushed.length > st.history.max_history_size then pushed.drop 1 else pushed
  let history1 : PriceHistory := { st.history with hourly_prices := pruned }
  { st with
    history := history1
    feed := { st.feed with twap_24h := calculate_twap history1 24 } }

/-! ## Integer square root: correctness of `sqrt_u128` -/

/-- The Newton step never drops below the integer square root: for
`g > 0`, `Nat.sqrt x ≤ (g + x/g)/2` (integer AM-GM). -/
lemma newton_step_ge_sqrt (x g : Nat) (hg : 0 < g) :
    Nat.sqrt x ≤ (g + x / g) / 2 := by
  rw [Nat.le_div_iff_mul_le (by norm_num : 0 < 2)]
  by_cases hcase : Nat.sqrt x * 2 ≤ g
  · exact le_trans hcase (Nat.le_add_right _ _)
  · push_neg at hcase
    have hk : Nat.sqrt x * 2 - g ≤ x / g := by
      rw [Nat.le_div_iff_mul_le hg]
      have h1 : (Nat.sqrt x * 2 - g) * g = Nat.sqrt x * 2 * g - g * g :=
        Nat.sub_mul _ _ _
      have h2 : 2 * Nat.sqrt x * g ≤ Nat.sqrt x * Nat.sqrt x + g * g := by
        have := two_mul_le_add_sq (Nat.sqrt x) g
        simpa [pow_two] using this
      have h3 : Nat.sqrt x * 2 * g = 2 * Nat.sqrt x * g := by ring
      have hx : Nat.sqrt x * Nat.sqrt x ≤ x := Nat.sqrt_le x
      omega
    omega

/-- The Newton loop computes `Nat.sqrt x` from any guess at least
`Nat.sqrt x`, given fuel covering the descent (the guess strictly
decreases on every iteration, so `fuel ≥ g - Nat.sqrt x` suffices). -/
lemma sqrtLoop_eq_sqrt (x : Nat) :
    ∀ fuel g, Nat.sqrt x ≤ g → g ≤ fuel + Nat.sqrt x → sqrtLoop x fuel g = Nat.sqrt x := by
  intro fuel
  induction fuel with
  | zero =>
    intro g h1 h2
    simp only [sqrtLoop]
    omega
  | succ n ih =>
    intro g h1 h2
    simp only [sqrtLoop]
    by_cases hx : x < g * g
    · simp only [hx, if_true]
      have hg : 0 < g := by
        rcases Nat.eq_zero_or_pos g with h | h
        · subst h; simp at hx
        · exact h
      have hdec : (g + x / g) / 2 < g := by
        have hdiv : x / g < g := (Nat.div_lt_iff_lt_mul hg).mpr hx
        omega
      exact ih _ (newton_step_ge_sqrt x g hg) (by omega)
    · simp only [hx, if_false]
      push_neg at hx
      have : g ≤ Nat.sqrt x := Nat.le_sqrt.mpr hx
      omega

/-- `sqrt_u128` terminates on every input (it is total by construction,
with provably sufficient fuel) and computes the truncated integer
square root. -/
lemma sqrt_u128_eq_sqrt (x : Nat) : sqrt_u128 x = Nat.sqrt x := by
  unfold sqrt_u128
  by_cases h0 : x = 0
  · simp [h0]
  · simp only [h0, if_false]
    by_cases hsmall : x / 2 = 0
    · have hx1 : x = 1 := by omega
      subst hx1
      simp [sqrtLoop]
    · simp only [hsmall, if_false]
      apply sqrtLoop_eq_sqrt
      · by_cases h4 : 4 ≤ x
        · have h2 : 2 ≤ Nat.sqrt x := Nat.le_sqrt.mpr (by omega)
          have hs : Nat.sqrt x * Nat.sqrt x ≤ x := Nat.sqrt_le x
          rw [Nat.le_div_iff_mul_le (by norm_num : 0 < 2)]
          nlinarith
        · have hx23 : x = 2 ∨ x = 3 := by omega
          rcases hx23 with h | h <;> subst h
          · have : Nat.sqrt 2 < 2 := Nat.sqrt_lt.mpr (by norm_num)
            omega
          · have : Nat.sqrt 3 < 2 := Nat.sqrt_lt.mpr (by norm_num)
            omega
      · omega

/-! ## Constant-product invariant -/

/-- The constant-product output is small enough to keep the invariant:
`out * (reserveIn + amountIn) ≤ amountIn * reserveOut`. -/
lemma cpmm_mul_le (a Ri Ro f : Nat) (hRi : 0 < Ri) :
    calculate_constant_product_output a Ri Ro f * (Ri + a) ≤ a * Ro := by
  unfold calculate_constant_product_output
  set g := 10000 - f with hg
  set N := a * g * Ro with hN
  set D := Ri * 10000 + a * g with hD
  have hD0 : 0 < D := by positivity
  have hqD : N / D * D ≤ N := Nat.div_mul_le_self N D
  have hg10000 : g ≤ 10000 := by omega
  have hNle : N * (Ri + a) ≤ a * Ro * D := by
    calc N * (Ri + a) = g * (a * Ro * Ri) + a * (a * Ro * g) := by rw [hN]; ring
    _ ≤ 10000 * (a * Ro * Ri) + a * (a * Ro * g) :=
        Nat.add_le_add_right (Nat.mul_le_mul_right _ hg10000) _
    _ = a * Ro * D := by rw [hD]; ring
  have hchain : N / D * (Ri + a) * D ≤ a * Ro * D := by
    calc N / D * (Ri + a) * D = N / D * D * (Ri + a) := by ring
    _ ≤ N * (Ri + a) := Nat.mul_le_mul_right _ hqD
    _ ≤ a * Ro * D := hNle
  exact Nat.le_of_mul_le_mul_right hchain hD0

/-- With a positive fee the inequality is strict: the fee share of the
input stays in the pool. -/
lemma cpmm_mul_lt (a Ri Ro f : Nat) (hRi : 0 < Ri) (hRo : 0 < Ro) (ha : 0 < a)
    (hf : 0 < f) :
    calculate_constant_product_output a Ri Ro f * (Ri + a) < a * Ro := by
  unfold calculate_constant_product_output
  set g := 10000 - f with hg
  set N := a * g * Ro with hN
  set D := Ri * 10000 + a * g with hD
  have hD0 : 0 < D := by positivity
  have hqD : N / D * D ≤ N := Nat.div_mul_le_self N D
  have hg9999 : g < 10000 := by omega
  have hX : 0 < a * Ro * Ri := by positivity
  have hNlt : N * (Ri + a) < a * Ro * D := by
    calc N * (Ri + a) = g * (a * Ro * Ri) + a * (a * Ro * g) := by rw [hN]; ring
    _ < 10000 * (a * Ro * Ri) + a * (a * Ro * g) :=
        Nat.add_lt_add_right (Nat.mul_lt_mul_of_lt_of_le hg9999 (le_refl _) hX) _
    _ = a * Ro * D := by rw [hD]; ring
  have hchain : N / D * (Ri + a) * D < a * Ro * D := by
    calc N / D * (Ri + a) * D = N / D * D * (Ri + a) := by ring
    _ ≤ N * (Ri + a) := Nat.mul_le_mul_right _ hqD
    _ < a * Ro * D := hNlt
  exact Nat.lt_of_mul_lt_mul_right hchain

/-- C1: every successful `swap_exact_input` on a non-stable pool with
positive reserves and positive input leaves the reserve product
`reserveA * reserveB` no smaller, and strictly larger when the pool's
fee rate is positive. -/
theorem swap_exact_input_preserves_product
    (pool pool' : LiquidityPool) (amount_in min_amount_out amount_out : Nat)
    (hstable : pool.is_stable_pool = false)
    (hra : 0 < pool.token_a_reserve) (hrb : 0 < pool.token_b_reserve)
    (ha : 0 < amount_in)
    (hswap : swap_exact_input pool amount_in min_amount_out = some (pool', amount_out)) :
    pool.token_a_reserve * pool.token_b_reserve ≤
      pool'.token_a_reserve * pool'.token_b_reserve ∧
    (0 < pool.swap_fee_rate →
      pool.token_a_reserve * pool.token_b_reserve <
        pool'.token_a_reserve * pool'.token_b_reserve) := by
  unfold swap_exact_input at hswap
  simp only [hstable, Bool.false_eq_true, if_false] at hswap
  split_ifs at hswap with h1 h2 h3 h4 h5 h6
  simp only [Option.some.injEq, Prod.mk.injEq] at hswap
  obtain ⟨hp, hq⟩ := hswap
  subst hp
  set Ri := pool.token_a_reserve with hRi
  set Ro := pool.token_b_reserve with hRo
  set q := calculate_constant_product_output amount_in Ri Ro pool.swap_fee_rate with hqdef
  have hqRo : q ≤ Ro := not_lt.mp h6
  have hRipos : 0 < Ri := hra
  have key : q * (Ri + amount_in) ≤ amount_in * Ro :=
    cpmm_mul_le amount_in Ri Ro pool.swap_fee_rate hRipos
  simp only
  constructor
  · have hd : Ro = (Ro - q) + q := by omega
    nlinarith [key, hd]
  · intro hf
    have key2 : q * (Ri + amount_in) < amount_in * Ro :=
      cpmm_mul_lt amount_in Ri Ro pool.swap_fee_rate hRipos hrb ha hf
    have hd : Ro = (Ro - q) + q := by omega
    nlinarith [key2, hd]

/-! ## Structural lemmas about aggregation rounds -/

/-- Every successful aggregation round — publishing or tripping — leaves
the price history and the stored TWAP untouched: the `update_twap` call
of the round is commented out in the source. -/
lemma aggregate_prices_history_inv
    (settings : AggregationSettings) (st : PairState) (t : Nat) (st' : PairState)
    (h : aggregate_prices settings st t = some st') :
    st'.history = st.history ∧ st'.feed.twap_24h = st.feed.twap_24h := by
  simp only [aggregate_prices] at h
  split_ifs at h with h1 h2 h3 h4
  · simp only [Option.some.injEq] at h
    subst h
    exact ⟨rfl, rfl⟩
  · cases hsubs : st.feed.price_sources with
    | nil => rw [hsubs] at h; simp at h
    | cons first rest =>
      rw [hsubs] at h
      simp only [Option.some.injEq] at h
      subst h
      exact ⟨rfl, rfl⟩

/-- Characterization of a publishing round (the trip test fails): the
feed is overwritten with the aggregated values and the buffer is left
holding exactly the first entry of the pre-round buffer. -/
lemma aggregate_prices_publish
    (settings : AggregationSettings) (st : PairState) (t : Nat) (st' : PairState)
    (h : aggregate_prices settings st t = some st')
    (hno : tripsBreaker settings st.feed.current_price
        (aggWeightedPrice (freshSubmissions settings.stale_threshold t
          st.feed.price_sources)) = false) :
    st'.history = st.history ∧ st'.breaker = st.breaker ∧
    st'.feed.current_price =
      aggWeightedPrice (freshSubmissions settings.stale_threshold t st.feed.price_sources) ∧
    st'.feed.confidence =
      totalWeight (freshSubmissions settings.stale_threshold t st.feed.price_sources) /
        (freshSubmissions settings.stale_threshold t st.feed.price_sources).length ∧
    st'.feed.last_update = t ∧
    st'.feed.source_count =
      (freshSubmissions settings.stale_threshold t st.feed.price_sources).length ∧
    st'.feed.price_sources = st.feed.price_sources.take 1 := by
  simp only [aggregate_prices] at h
  split_ifs at h with h1 h2 h3 h4
  · rw [hno] at h4
    exact absurd h4 (by simp)
  · cases hsubs : st.feed.price_sources with
    | nil => rw [hsubs] at h; simp at h
    | cons first rest =>
      rw [hsubs] at h
      simp only [Option.some.injEq] at h
      subst h
      refine ⟨rfl, rfl, rfl, rfl, rfl, rfl, ?_⟩
      simp [hsubs]

/-- A reporter who already has a buffered submission for the pair
cannot submit again: `vec_map::insert` rejects the duplicate key. -/
lemma submit_price_duplicate_none
    (settings : AggregationSettings) (is_paused : Bool) (node : OracleNode)
    (st : PairState) (price confidence : Nat) (source_id : String) (t : Nat)
    (hdup : st.feed.price_sources.any (fun p => p.1 = node.node_address) = true) :
    submit_price settings is_paused node st price confidence source_id t = none := by
  simp only [submit_price]
  split_ifs with h1 h2 h3 h4 <;> try rfl
  simp [vecMapInsert, hdup]

/-! ## Concrete fixtures for witnesses and counterexamples -/

/-- An authorized oracle node at a given address. -/
def authNode (addr : Nat) : OracleNode :=
  { node_address := addr
    reputation_score := 100
    total_submissions := 0
    accurate_submissions := 0
    stake_amount := 1000
    last_submission := 0
    is_authorized := true
    reward_multiplier := 100 }

/-- A price submission fixture. -/
def mkSub (price confidence timestamp : Nat) : PriceSubmission :=
  { price := price, confidence := confidence, timestamp := timestamp
    source_id := "src" }

/-- A pair whose circuit breaker is tripped, last normal price 100. -/
def trippedPair : PairState :=
  let base := add_price_feed "IOTA/USD"
  { base with
    breaker :=
      { base.breaker with
        is_triggered := true
        trigger_price := 130
        trigger_timestamp := 500
        last_normal_price := 100 } }

/-- A quorum-sized buffer of fresh concordant submissions with an
existing published price of 100. -/
def fullBufferPair : PairState :=
  let base := add_price_feed "IOTA/USD"
  { base with
    feed :=
      { base.feed with
        current_price := 100
        confidence := 95
        last_update := 900
        price_sources :=
          [(1, mkSub 102 100 900), (2, mkSub 101 100 900), (3, mkSub 103 100 900)] }
    history :=
      { base.history with
        hourly_prices :=
          [{ timestamp := 800, open_ := 100, high := 100, low := 100, close := 100
             volume := 0, weighted_price := 100 }] } }

/-- A quorum-sized buffer of low-confidence submissions at price 150,
confidence 1, on a pair with no previous published price. -/
def lowWeightPair : PairState :=
  let base := add_price_feed "IOTA/USD"
  { base with
    feed :=
      { base.feed with
        price_sources :=
          [(1, mkSub 150 1 900), (2, mkSub 150 1 900), (3, mkSub 150 1 900)] } }

/-! ## C2: submissions while the breaker is tripped -/

/-- C2 (amended): while the pair's breaker is TRIPPED, a `submit_price`
call whose price deviates from `last_normal_price` by more than the
breaker's reset threshold is rejected with an error (the call aborts
with `ECircuitBreakerTriggered`); it does not enter the round. -/
theorem submit_price_tripped_out_of_band_rejected
    (settings : AggregationSettings) (is_paused : Bool) (node : OracleNode)
    (st : PairState) (price confidence : Nat) (source_id : String) (t : Nat)
    (hTrig : st.breaker.is_triggered = true)
    (hdev : st.breaker.reset_threshold <
      calculate_price_deviation price st.breaker.last_normal_price) :
    submit_price settings is_paused node st price confidence source_id t = none := by
  simp only [submit_price]
  split_ifs with h1 h2 h3 h4 <;> try rfl
  exact absurd ⟨hTrig, hdev⟩ h4

/-- C2 witness: a concrete tripped pair (reset threshold 500 bps, last
normal price 100) rejects a submission at price 200 (deviation 10000
bps). -/
theorem submit_price_tripped_out_of_band_rejected_witness :
    submit_price defaultSettings false (authNode 1) trippedPair 200 90 "src" 1000 =
      none :=
  submit_price_tripped_out_of_band_rejected defaultSettings false (authNode 1)
    trippedPair 200 90 "src" 1000 (by decide) (by decide)

/-- C2 counterexample: the claim says such a submission succeeds; on the
concrete tripped pair the out-of-band submission aborts (`none`), so it
is rejected, not silently excluded. -/
theorem submit_price_tripped_not_silently_excluded_cex :
    trippedPair.breaker.is_triggered = true ∧
    trippedPair.breaker.reset_threshold <
      calculate_price_deviation 200 trippedPair.breaker.last_normal_price ∧
    submit_price defaultSettings false (authNode 1) trippedPair 200 90 "src" 1000 =
      none := by
  refine ⟨by decide, by decide, ?_⟩
  decide

/-! ## C3: initial per-pair configuration -/

/-- C3 counterexample: the reset threshold installed by `add_price_feed`
is `MAX_PRICE_DEVIATION / 2 = 500` basis points (5%), not the 1000
basis points (10%) the claim states. -/
theorem add_price_feed_reset_threshold_cex :
    (add_price_feed "IOTA/USD").breaker.reset_threshold = 500 ∧
    (add_price_feed "IOTA/USD").breaker.reset_threshold ≠ 1000 := by
  decide

/-- C3 (amended): `add_price_feed` creates a breaker whose reset
threshold is 500 basis points (5% deviation from `last_normal_price`);
the trip threshold is the global constant `CIRCUIT_BREAKER_THRESHOLD`
of 2000 basis points (20%); and the price history capacity is
`TWAP_WINDOW_SIZE * 30 = 24 * 30 = 720` hourly buckets. -/
theorem add_price_feed_initial_config (pair : String) :
    (add_price_feed pair).breaker.reset_threshold = 500 ∧
    (add_price_feed pair).breaker.is_triggered = false ∧
    CIRCUIT_BREAKER_THRESHOLD = 2000 ∧
    (add_price_feed pair).history.max_history_size = 24 * 30 ∧
    (add_price_feed pair).history.hourly_prices = [] := by
  exact ⟨rfl, rfl, rfl, rfl, rfl⟩

/-! ## C4: history/TWAP are not updated by aggregation -/

/-- C4: contrary to the claim, a successful aggregation round — in
particular a publishing one — leaves the pair's price history and the
feed's `twap_24h` exactly as they were: the `update_twap` call in
`aggregate_prices` is commented out in the source, and
`update_twap`/`calculate_twap` are dead code. -/
theorem aggregate_prices_leaves_history_and_twap_unchanged
    (settings : AggregationSettings) (st : PairState) (t : Nat) (st' : PairState)
    (h : aggregate_prices settings st t = some st') :
    st'.history = st.history ∧ st'.feed.twap_24h = st.feed.twap_24h :=
  aggregate_prices_history_inv settings st t st' h

/-- C4 witness: a concrete publishing round (three fresh submissions,
old price 100, new price 102, no trip) leaves the one-bucket history
and the zero TWAP untouched. -/
theorem aggregate_prices_leaves_history_and_twap_unchanged_witness :
    (aggregate_prices defaultSettings fullBufferPair 1000).map (fun s => s.history) =
      some fullBufferPair.history ∧
    (aggregate_prices defaultSettings fullBufferPair 1000).map
        (fun s => s.feed.twap_24h) =
      some fullBufferPair.feed.twap_24h := by
  cases hagg : aggregate_prices defaultSettings fullBufferPair 1000 with
  | none => exact absurd hagg (by decide)
  | some st1 =>
    have h := aggregate_prices_leaves_history_and_twap_unchanged defaultSettings
      fullBufferPair 1000 st1 hagg
    simp [h.1, h.2]

/-! ## C5: the buffer after a publishing round -/

/-- C5 counterexample: after the concrete publishing round the buffer
is not empty — it holds the re-inserted first submission. -/
theorem aggregate_buffer_not_cleared_cex :
    (aggregate_prices defaultSettings fullBufferPair 1000).map
        (fun s => s.feed.price_sources) =
      some [(1, mkSub 102 100 900)] ∧
    ([(1, mkSub 102 100 900)] : List (Nat × PriceSubmission)) ≠ [] := by
  refine ⟨?_, by decide⟩
  decide

/-- C5 (amended): immediately after a publishing aggregation round the
pair's submission buffer is not empty: it holds exactly one entry, the
first submission of the pre-round buffer, which the source re-inserts
after clearing. -/
theorem aggregate_publish_buffer_take_one
    (settings : AggregationSettings) (st : PairState) (t : Nat) (st' : PairState)
    (h : aggregate_prices settings st t = some st')
    (hno : tripsBreaker settings st.feed.current_price
        (aggWeightedPrice (freshSubmissions settings.stale_threshold t
          st.feed.price_sources)) = false) :
    st'.feed.price_sources = st.feed.price_sources.take 1 ∧
    (st.feed.price_sources ≠ [] → st'.feed.price_sources ≠ []) := by
  have hbuf := (aggregate_prices_publish settings st t st' h hno).2.2.2.2.2.2
  refine ⟨hbuf, ?_⟩
  intro hne
  rw [hbuf]
  cases hcase : st.feed.price_sources with
  | nil => exact absurd hcase hne
  | cons a l => simp [hcase]

/-- C5 witness: the concrete publishing round keeps exactly the first
buffered submission. -/
theorem aggregate_publish_buffer_take_one_witness :
    (aggregate_prices defaultSettings fullBufferPair 1000).map
        (fun s => s.feed.price_sources) =
      some (fullBufferPair.feed.price_sources.take 1) := by
  cases hagg : aggregate_prices defaultSettings fullBufferPair 1000 with
  | none => exact absurd hagg (by decide)
  | some st1 =>
    have h := aggregate_publish_buffer_take_one defaultSettings fullBufferPair 1000 st1
      hagg (by decide)
    simp [h.1]

/-! ## C6: the published price formula -/

/-- Modelled from the spec for comparison with the source computation:
"Weighted price = `floor(Σ(price_i*confidence_i)/100)`, rescaled by
`*100/Σconfidence_i`" — one truncation after the whole sum, then one
after the rescale. -/
def spec_weighted_price (subs : List (Nat × PriceSubmission)) : Nat :=
  let w := totalWeight subs
  let s := (subs.map (fun p => p.2.price * p.2.confidence)).sum / 100
  if 0 < w then s * 100 / w else s

/-- C6 counterexample: for three fresh submissions at price 150 with
confidence 1 each, the source publishes
`(Σ floor(p*c/100)) * 100 / Σc = 3 * 100 / 3 = 100`, while the claim's
formula gives `floor(Σ p*c / 100) * 100 / Σc = 4 * 100 / 3 = 133`. -/
theorem aggregate_price_one_truncation_cex :
    (aggregate_prices defaultSettings lowWeightPair 1000).map
        (fun s => s.feed.current_price) = some 100 ∧
    spec_weighted_price (freshSubmissions defaultSettings.stale_threshold 1000
      lowWeightPair.feed.price_sources) = 133 ∧
    (100 : Nat) ≠ 133 := by
  refine ⟨?_, by decide, by decide⟩
  decide

/-- C6 (amended): a publishing round with positive total confidence
publishes the price
`(Σ_i floor(price_i*confidence_i/100)) * 100 / Σ_i confidence_i`
(the truncation is applied inside each term of the sum, then once more
after the rescale) and the confidence
`floor(Σ_i confidence_i / sourceCount)`, both over the non-stale
submissions. -/
theorem aggregate_publish_price_and_confidence
    (settings : AggregationSettings) (st : PairState) (t : Nat) (st' : PairState)
    (h : aggregate_prices settings st t = some st')
    (hno : tripsBreaker settings st.feed.current_price
        (aggWeightedPrice (freshSubmissions settings.stale_threshold t
          st.feed.price_sources)) = false)
    (hw : 0 < totalWeight (freshSubmissions settings.stale_threshold t
      st.feed.price_sources)) :
    st'.feed.current_price =
      ((freshSubmissions settings.stale_threshold t st.feed.price_sources).map
        (fun p => p.2.price * p.2.confidence / 100)).sum * 100 /
      ((freshSubmissions settings.stale_threshold t st.feed.price_sources).map
        (fun p => p.2.confidence)).sum ∧
    st'.feed.confidence =
      ((freshSubmissions settings.stale_threshold t st.feed.price_sources).map
        (fun p => p.2.confidence)).sum /
      (freshSubmissions settings.stale_threshold t st.feed.price_sources).length := by
  obtain ⟨-, -, hp, hc, -, -, -⟩ := aggregate_prices_publish settings st t st' h hno
  constructor
  · rw [hp]
    unfold aggWeightedPrice
    rw [if_pos hw]
    rfl
  · rw [hc]
    rfl

/-- C6 witness: the concrete publishing round on `fullBufferPair`
publishes price `(102+101+103)*100/300 = 102` and confidence
`300/3 = 100`. -/
theorem aggregate_publish_price_and_confidence_witness :
    (aggregate_prices defaultSettings fullBufferPair 1000).map
        (fun s => s.feed.current_price) = some 102 ∧
    (aggregate_prices defaultSettings fullBufferPair 1000).map
        (fun s => s.feed.confidence) = some 100 := by
  cases hagg : aggregate_prices defaultSettings fullBufferPair 1000 with
  | none => exact absurd hagg (by decide)
  | some st1 =>
    have h := aggregate_publish_price_and_confidence defaultSettings fullBufferPair
      1000 st1 hagg (by decide) (by decide)
    have h1 : st1.feed.current_price = 102 := h.1.trans (by decide)
    have h2 : st1.feed.confidence = 100 := h.2.trans (by decide)
    simp [h1, h2]

/-! ## C9: duplicate submissions and the retained reporter -/

/-- C9: a reporter with a buffered submission for the pair cannot
submit again (`vec_map::insert` aborts on the duplicate key); and since
a publishing round re-inserts the first buffered submission, the
reporter whose submission is retained cannot submit for that pair even
though the round completed. -/
theorem submit_price_blocked_for_retained_reporter :
    (∀ (settings : AggregationSettings) (paused : Bool) (node : OracleNode)
        (st : PairState) (price conf : Nat) (sid : String) (t : Nat),
      st.feed.price_sources.any (fun p => p.1 = node.node_address) = true →
      submit_price settings paused node st price conf sid t = none) ∧
    (∀ (settings : AggregationSettings) (st : PairState) (t : Nat) (st' : PairState)
        (first : Nat × PriceSubmission) (rest : List (Nat × PriceSubmission)),
      st.feed.price_sources = first :: rest →
      aggregate_prices settings st t = some st' →
      tripsBreaker settings st.feed.current_price
        (aggWeightedPrice (freshSubmissions settings.stale_threshold t
          st.feed.price_sources)) = false →
      ∀ (paused : Bool) (node : OracleNode) (price conf : Nat) (sid : String)
        (t2 : Nat),
        node.node_address = first.1 →
        submit_price settings paused node st' price conf sid t2 = none) := by
  constructor
  · exact fun settings paused node st price conf sid t h =>
      submit_price_duplicate_none settings paused node st price conf sid t h
  · intro settings st t st' first rest hsubs hagg hno paused node price conf sid t2
      haddr
    have hbuf := (aggregate_prices_publish settings st t st' hagg hno).2.2.2.2.2.2
    apply submit_price_duplicate_none
    rw [hbuf, hsubs]
    simp [haddr]

/-- C9 witness: reporter 1 has the buffered submission of
`fullBufferPair`, so a fresh submission of theirs aborts; and after the
publishing round reporter 1 is the retained source, so their next
submission aborts as well. -/
theorem submit_price_blocked_for_retained_reporter_witness :
    submit_price defaultSettings false (authNode 1) fullBufferPair 105 90 "src" 950 =
      none ∧
    (aggregate_prices defaultSettings fullBufferPair 1000).map
        (fun st1 => submit_price defaultSettings false (authNode 1) st1 105 90 "src"
          1100) =
      some none := by
  constructor
  · exact submit_price_blocked_for_retained_reporter.1 defaultSettings false
      (authNode 1) fullBufferPair 105 90 "src" 950 (by decide)
  · cases hagg : aggregate_prices defaultSettings fullBufferPair 1000 with
    | none => exact absurd hagg (by decide)
    | some st1 =>
      have h := submit_price_blocked_for_retained_reporter.2 defaultSettings
        fullBufferPair 1000 st1 (1, mkSub 102 100 900)
        [(2, mkSub 101 100 900), (3, mkSub 103 100 900)] rfl hagg (by decide)
        false (authNode 1) 105 90 "src" 1100 rfl
      simp [h]

/-! ## C1 witness fixture and witness -/

/-- The swap-scenario pool of the specification: reserves
1,000,000 / 1,000,000, fee 30 bps, constant-product curve. -/
def testPool : LiquidityPool :=
  { token_a_reserve := 1000000, token_b_reserve := 1000000, lp_token_supply := 1000000,
    swap_fee_rate := 30, last_price := 1000000, price_cumulative_last := 0,
    block_timestamp_last := 0, k_constant := 1000000 * 1000000,
    amplification_coefficient := 0, is_stable_pool := false }

/-- The pool state after swapping 10,000 of A into `testPool`: output
9,871, reserves 1,010,000 / 990,129. -/
def testPoolAfter : LiquidityPool :=
  { testPool with
    token_a_reserve := 1010000, token_b_reserve := 990129, last_price := 980325 }

/-- C1 witness: the concrete swap of 10,000 into the 1,000,000 ×
1,000,000 pool at fee 30 bps strictly grows the reserve product. -/
theorem swap_exact_input_preserves_product_witness :
    testPool.token_a_reserve * testPool.token_b_reserve <
      testPoolAfter.token_a_reserve * testPoolAfter.token_b_reserve :=
  (swap_exact_input_preserves_product testPool testPoolAfter 10000 0 9871 rfl
    (by decide) (by decide) (by decide) (by decide)).2 (by decide)

/-! ## C7: flash loans -/

/-- C7: `flash_loan` fails exactly when the requested amount exceeds a
(truncated) tenth of the reserve; `repay_flash_loan` fails exactly when
the repayment is below principal plus `floor(amount*9/10000)`; and on
the specification's concrete scenario — borrowing 100,000 from a
1,000,000 reserve — repaying 100,089 fails, repaying 100,090 succeeds
and restores principal plus the fee of 90 to the reserve. -/
theorem flash_loan_bounds_and_fee :
    (∀ (pool : LiquidityPool) (amount : Nat),
      flash_loan pool amount = none ↔ pool.token_a_reserve / 10 < amount) ∧
    (∀ (pool : LiquidityPool) (repayment : Nat) (receipt : FlashLoan),
      repay_flash_loan pool repayment receipt = none ↔
        repayment < receipt.amount + receipt.fee) ∧
    flash_loan testPool 100000 =
      some ({ testPool with token_a_reserve := 900000 }, 100000,
        { amount := 100000, fee := 90 }) ∧
    repay_flash_loan { testPool with token_a_reserve := 900000 } 100089
        { amount := 100000, fee := 90 } = none ∧
    repay_flash_loan { testPool with token_a_reserve := 900000 } 100090
        { amount := 100000, fee := 90 } =
      some { testPool with token_a_reserve := 1000090 } ∧
    (1000090 : Nat) = testPool.token_a_reserve + 100000 * 9 / 10000 := by
  refine ⟨?_, ?_, by decide, by decide, by decide, by decide⟩
  · intro pool amount
    simp only [flash_loan]
    split_ifs with h
    · simp
      omega
    · simp
      omega
  · intro pool repayment receipt
    simp only [repay_flash_loan]
    split_ifs with h
    · simp
      omega
    · simp
      omega

/-- C7 witness: borrowing 100,001 from the 1,000,000 reserve fails, and
repaying 99 against a 100/0-receipt fails. -/
theorem flash_loan_bounds_and_fee_witness :
    flash_loan testPool 100001 = none ∧
    repay_flash_loan testPool 99 { amount := 100, fee := 0 } = none :=
  ⟨(flash_loan_bounds_and_fee.1 testPool 100001).mpr (by decide),
    (flash_loan_bounds_and_fee.2.1 testPool 99 { amount := 100, fee := 0 }).mpr
      (by decide)⟩

/-! ## C8: pool creation and the integer square root -/

/-- C8: pool creation fails when either initial deposit is zero; on
success the initial LP supply is the truncated integer square root of
`initialA * initialB`; and `sqrt_u128` is total and returns
`floor(sqrt x)` on every input. -/
theorem create_pool_isqrt_lp_supply :
    (∀ (a b : Nat) (s : Bool) (amp f : Nat),
      a = 0 ∨ b = 0 → create_liquidity_pool a b s amp f = none) ∧
    (∀ (a b : Nat) (s : Bool) (amp f : Nat) (pool : LiquidityPool),
      create_liquidity_pool a b s amp f = some pool →
      pool.lp_token_supply = Nat.sqrt (a * b)) ∧
    (∀ x : Nat, sqrt_u128 x = Nat.sqrt x ∧
      sqrt_u128 x * sqrt_u128 x ≤ x ∧ x < (sqrt_u128 x + 1) * (sqrt_u128 x + 1)) := by
  refine ⟨?_, ?_, ?_⟩
  · intro a b s amp f h
    have hneg : ¬(a > 0 ∧ b > 0) := by omega
    simp [create_liquidity_pool, hneg]
  · intro a b s amp f pool h
    simp only [create_liquidity_pool] at h
    split_ifs at h with hpos
    cases hcast : castU64 (a * b) with
    | none => rw [hcast] at h; simp at h
    | some k =>
      rw [hcast] at h
      simp only [Option.some.injEq] at h
      subst h
      exact sqrt_u128_eq_sqrt (a * b)
  · intro x
    refine ⟨sqrt_u128_eq_sqrt x, ?_, ?_⟩
    · rw [sqrt_u128_eq_sqrt]
      exact Nat.sqrt_le x
    · rw [sqrt_u128_eq_sqrt]
      have := Nat.lt_succ_sqrt x
      simpa [Nat.succ_eq_add_one] using this

/-- C8 witness: creating with a zero deposit fails, and the 4 × 9 pool
starts with LP supply `isqrt 36 = 6`. -/
theorem create_pool_isqrt_lp_supply_witness :
    create_liquidity_pool 0 5 false 0 30 = none ∧
    (create_liquidity_pool 4 9 false 0 30).map (fun p => p.lp_token_supply) =
      some 6 := by
  constructor
  · exact create_pool_isqrt_lp_supply.1 0 5 false 0 30 (Or.inl rfl)
  · cases hc : create_liquidity_pool 4 9 false 0 30 with
    | none => exact absurd hc (by decide)
    | some p =>
      have hlp := create_pool_isqrt_lp_supply.2.1 4 9 false 0 30 p hc
      have h6 : Nat.sqrt 36 = 6 := by
        rw [← sqrt_u128_eq_sqrt]
        decide
      simp [hlp, h6]

/-! ## C10: the u64 ceiling on the reserve product -/

/-- Inversion for the modelled narrowing cast: a successful cast means
the value fits below `2^64` and is returned unchanged. -/
lemma castU64_eq_some (x y : Nat) (h : castU64 x = some y) : x < U64_BOUND ∧ y = x := by
  unfold castU64 at h
  split_ifs at h with hx
  simp only [Option.some.injEq] at h
  exact ⟨hx, h.symm⟩

/-- C10: `create_liquidity_pool` aborts whenever the initial reserve
product reaches `2^64` (the `u128` `k_constant` is cast back to `u64`),
and every successful `create_liquidity_pool` or `add_liquidity` leaves
a reserve product strictly below `2^64` — a hard ceiling under the
individual `u64` reserve ranges. -/
theorem reserve_product_u64_ceiling :
    (∀ (a b : Nat) (s : Bool) (amp f : Nat),
      U64_BOUND ≤ a * b → create_liquidity_pool a b s amp f = none) ∧
    (∀ (a b : Nat) (s : Bool) (amp f : Nat) (pool : LiquidityPool),
      create_liquidity_pool a b s amp f = some pool →
      pool.token_a_reserve * pool.token_b_reserve < U64_BOUND) ∧
    (∀ (pool : LiquidityPool) (a b m : Nat) (pool' : LiquidityPool) (lp : Nat),
      add_liquidity pool a b m = some (pool', lp) →
      pool'.token_a_reserve * pool'.token_b_reserve < U64_BOUND) := by
  refine ⟨?_, ?_, ?_⟩
  · intro a b s amp f h
    by_cases hpos : a > 0 ∧ b > 0
    · have hcast : castU64 (a * b) = none := by
        unfold castU64
        rw [if_neg]
        omega
      simp [create_liquidity_pool, hpos, hcast]
    · simp [create_liquidity_pool, hpos]
  · intro a b s amp f pool h
    simp only [create_liquidity_pool] at h
    split_ifs at h with hpos
    cases hcast : castU64 (a * b) with
    | none => rw [hcast] at h; simp at h
    | some k =>
      rw [hcast] at h
      simp only [Option.some.injEq] at h
      subst h
      exact (castU64_eq_some _ _ hcast).1
  · intro pool a b m pool' lp h
    simp only [add_liquidity] at h
    split_ifs at h with h1 h2 h3
    all_goals
      split at h
      next hcast => simp at h
      next k hcast =>
        simp only [Option.some.injEq, Prod.mk.injEq] at h
        obtain ⟨hp, -⟩ := h
        subst hp
        exact (castU64_eq_some _ _ hcast).1

/-- C10 witness: creating a pool with `2^32 × 2^32` deposits aborts,
and a successful concrete `add_liquidity` keeps the product below
`2^64`. -/
theorem reserve_product_u64_ceiling_witness :
    create_liquidity_pool 4294967296 4294967296 false 0 30 = none ∧
    ((add_liquidity testPool 1000 1000 0).map
        (fun pr => pr.1.token_a_reserve * pr.1.token_b_reserve)).getD U64_BOUND <
      U64_BOUND := by
  constructor
  · exact reserve_product_u64_ceiling.1 4294967296 4294967296 false 0 30 (by decide)
  · cases hadd : add_liquidity testPool 1000 1000 0 with
    | none => exact absurd hadd (by decide)
    | some pr =>
      obtain ⟨p1, l1⟩ := pr
      have h := reserve_product_u64_ceiling.2.2 testPool 1000 1000 0 p1 l1 hadd
      simpa using h
